import Mathlib

/-!
Verification development for the Cloud PDF Editor repository.

The definitions below are shallow embeddings of the JavaScript source:
`src/pdfService.js` (coordinate transforms and the export stage functions)
and `src/app.js` (export page ordering, annotation remapping, highlight
gesture commit, rich-text span serialization, and session restoration).
JavaScript numbers are modelled as rationals, byte arrays as lists of
naturals, and fallible code as `Except String`.
-/

set_option maxHeartbeats 1000000

/-- Size record with width and height, as the plain objects passed for
`pageSize` and `overlaySize` in `src/pdfService.js`. -/
structure Size where
  width : ℚ
  height : ℚ
deriving DecidableEq

/-- Axis-aligned rectangle record, as the plain objects used for overlay
rectangles and document-space rectangles in `src/pdfService.js`. -/
structure Rect where
  x : ℚ
  y : ℚ
  width : ℚ
  height : ℚ
deriving DecidableEq

/-- Point record with x and y coordinates. -/
structure Pt where
  x : ℚ
  y : ℚ
deriving DecidableEq

/-- Embeds `convertOverlayRectToPdfRect(overlayRect, pageSize, overlaySize)`
from `src/pdfService.js`. -/
def convertOverlayRectToPdfRect (overlayRect : Rect) (pageSize overlaySize : Size) : Rect :=
  let scaleX := pageSize.width / overlaySize.width
  let scaleY := pageSize.height / overlaySize.height
  { x := overlayRect.x * scaleX
    y := pageSize.height - (overlayRect.y + overlayRect.height) * scaleY
    width := overlayRect.width * scaleX
    height := overlayRect.height * scaleY }

/-- Embeds `convertOverlayPointToPdfPoint(point, pageSize, overlaySize)`
from `src/pdfService.js`. -/
def convertOverlayPointToPdfPoint (point : Pt) (pageSize overlaySize : Size) : Pt :=
  let scaleX := pageSize.width / overlaySize.width
  let scaleY := pageSize.height / overlaySize.height
  { x := point.x * scaleX
    y := pageSize.height - point.y * scaleY }

/-- C1: for every overlay rectangle, page native size, point, and overlay
size snapshot with non-zero snapshot dimensions, the rectangle transform
returns x scaled by pageSize.width / overlaySize.width, width and height
scaled accordingly, and y = pageSize.height - (y + height) * scaleY; the
point variant returns y = pageSize.height - point.y * scaleY with no
height term. -/
theorem convertOverlayRect_matches_spec
    (overlayRect : Rect) (point : Pt) (pageSize overlaySize : Size)
    (hw : overlaySize.width ≠ 0) (hh : overlaySize.height ≠ 0) :
    (convertOverlayRectToPdfRect overlayRect pageSize overlaySize).x
        = overlayRect.x * (pageSize.width / overlaySize.width) ∧
    (convertOverlayRectToPdfRect overlayRect pageSize overlaySize).width
        = overlayRect.width * (pageSize.width / overlaySize.width) ∧
    (convertOverlayRectToPdfRect overlayRect pageSize overlaySize).height
        = overlayRect.height * (pageSize.height / overlaySize.height) ∧
    (convertOverlayRectToPdfRect overlayRect pageSize overlaySize).y
        = pageSize.height -
            (overlayRect.y + overlayRect.height) * (pageSize.height / overlaySize.height) ∧
    (convertOverlayPointToPdfPoint point pageSize overlaySize).x
        = point.x * (pageSize.width / overlaySize.width) ∧
    (convertOverlayPointToPdfPoint point pageSize overlaySize).y
        = pageSize.height - point.y * (pageSize.height / overlaySize.height) := by
  refine ⟨rfl, rfl, rfl, rfl, rfl, rfl⟩

/-- Witness for C1 at a concrete non-degenerate overlay snapshot. -/
theorem convertOverlayRect_matches_spec_witness :
    (convertOverlayRectToPdfRect ⟨10, 20, 30, 40⟩ ⟨300, 400⟩ ⟨600, 800⟩).x
        = (10 : ℚ) * (300 / 600) := by
  exact (convertOverlayRect_matches_spec ⟨10, 20, 30, 40⟩ ⟨0, 0⟩ ⟨300, 400⟩ ⟨600, 800⟩
    (by norm_num) (by norm_num)).1

/-- C2 counterexample: with overlay size 600 by 800 and page size 300 by 400
(the sizes exactly as the claim states them), the transform of overlay rect
(60, 80, 120, 160) returns (30, 280, 60, 80), not (120, 320, 240, 320). -/
theorem convertOverlayRect_example_as_claimed_fails :
    convertOverlayRectToPdfRect ⟨60, 80, 120, 160⟩ ⟨300, 400⟩ ⟨600, 800⟩
        = ⟨30, 280, 60, 80⟩ ∧
    convertOverlayRectToPdfRect ⟨60, 80, 120, 160⟩ ⟨300, 400⟩ ⟨600, 800⟩
        ≠ ⟨120, 320, 240, 320⟩ := by
  constructor
  · simp only [convertOverlayRectToPdfRect, Rect.mk.injEq]
    norm_num
  · simp only [convertOverlayRectToPdfRect, ne_eq, Rect.mk.injEq]
    norm_num

/-- C2 amended: with page size 600 by 800 and overlay size 300 by 400 (the
pairing also exercised by the repository test suite), the transform of
overlay rect (60, 80, 120, 160) returns exactly (120, 320, 240, 320). -/
theorem convertOverlayRect_example_corrected :
    convertOverlayRectToPdfRect ⟨60, 80, 120, 160⟩ ⟨600, 800⟩ ⟨300, 400⟩
        = ⟨120, 320, 240, 320⟩ := by
  simp only [convertOverlayRectToPdfRect, Rect.mk.injEq]
  norm_num

/-- Per-page property maps carried in `state.pageProperties` in
`src/app.js`: the hidden and deleted sets, and the duplicates record with
the `?? 0` default for absent entries built in. -/
structure PageProps where
  hidden : Nat → Bool
  deleted : Nat → Bool
  duplicates : Nat → Nat

/-- Embeds `buildExportPageOrder()` from `src/app.js`: walk pages 1..N,
skip hidden or deleted pages, push the page, then push it again once per
duplicate. -/
def buildExportPageOrder (pageCount : Nat) (props : PageProps) : List Nat :=
  (List.range' 1 pageCount).foldl
    (fun order page =>
      if props.hidden page || props.deleted page then order
      else
        let duplicateCount := props.duplicates page
        if duplicateCount > 0 then (order ++ [page]) ++ List.replicate duplicateCount page
        else order ++ [page])
    []

/-- Ordered list of visible pages, written from the specification: pages
1..N minus any page marked hidden or deleted. -/
def visiblePagesSpec (pageCount : Nat) (props : PageProps) : List Nat :=
  (List.range' 1 pageCount).filter (fun page => !(props.hidden page || props.deleted page))

/-- Export page sequence written from the specification: each visible page
emitted once, immediately followed by `duplicateCount` adjacent copies. -/
def exportPageSequenceSpec (pageCount : Nat) (props : PageProps) : List Nat :=
  (visiblePagesSpec pageCount props).bind
    (fun page => page :: List.replicate (props.duplicates page) page)

theorem foldl_filter_bind {α β : Type} (keep : α → Bool) (f : α → List β) :
    ∀ (l : List α) (acc : List β),
      l.foldl (fun acc2 a => if keep a then acc2 ++ f a else acc2) acc
        = acc ++ (l.filter keep).bind f := by
  intro l
  induction l with
  | nil => intro acc; simp
  | cons a t ih =>
    intro acc
    simp only [List.foldl_cons]
    by_cases h : keep a
    · simp [h, ih, List.filter_cons, List.append_assoc]
    · simp [h, ih, List.filter_cons]

/-- C3: for every page count and page-properties state, the export page
sequence walks pages 1..N in order, omits hidden and deleted pages, and
emits each remaining page once followed immediately by duplicateCount
adjacent copies, never reordering duplicates relative to other pages. -/
theorem buildExportPageOrder_matches_spec (pageCount : Nat) (props : PageProps) :
    buildExportPageOrder pageCount props = exportPageSequenceSpec pageCount props := by
  unfold buildExportPageOrder exportPageSequenceSpec visiblePagesSpec
  have hstep :
      (fun (order : List Nat) page =>
        if props.hidden page || props.deleted page then order
        else
          let duplicateCount := props.duplicates page
          if duplicateCount > 0 then (order ++ [page]) ++ List.replicate duplicateCount page
          else order ++ [page])
      = fun (acc2 : List Nat) a =>
          if !(props.hidden a || props.deleted a) then
            acc2 ++ (a :: List.replicate (props.duplicates a) a)
          else acc2 := by
    funext acc a
    by_cases h : props.hidden a || props.deleted a
    · simp [h]
    · by_cases hd : props.duplicates a > 0
      · simp [h, hd, List.append_assoc]
      · have hz : props.duplicates a = 0 := Nat.eq_zero_of_not_pos hd
        simp [h, hd, hz]
  rw [hstep]
  exact foldl_filter_bind _ _ (List.range' 1 pageCount) []

/-- Record placed on a page: a page number plus the remaining fields of the
source annotation object, kept abstract since the remap copies them
through the object spread unchanged. -/
structure PlacedAnnot (α : Type) where
  pageNumber : Nat
  payload : α
deriving DecidableEq

/-- Positions pushed for one page while `remapAnnotationsForExport` in
`src/app.js` builds its reverse index: the 1-based output positions at
which the page occurs, in traversal order. -/
def exportTargetsAux (order : List Nat) (p : Nat) (i : Nat) : List Nat :=
  match order with
  | [] => []
  | q :: rest =>
      if q = p then (i + 1) :: exportTargetsAux rest p (i + 1)
      else exportTargetsAux rest p (i + 1)

/-- Entry of the reverse index `indexMap` of `remapAnnotationsForExport`
for one original page number. -/
def exportTargets (order : List Nat) (p : Nat) : List Nat := exportTargetsAux order p 0

/-- Embeds `remapAnnotationsForExport(annotations, exportPageOrder)` from
`src/app.js`: each input emits one copy per output position of its page
number, and inputs whose page has no output positions are skipped. -/
def remapAnnotationsForExport {α : Type} (annots : List (PlacedAnnot α))
    (exportPageOrder : List Nat) : List (PlacedAnnot α) :=
  if annots.isEmpty then []
  else
    annots.foldl
      (fun mapped a =>
        let targets := exportTargets exportPageOrder a.pageNumber
        if targets.isEmpty then mapped
        else mapped ++ targets.map (fun t => { a with pageNumber := t }))
      []

/-- Written from the specification: the list of 1-based positions at which
a page number occurs in the export sequence. -/
def occurrencePositionsSpec (p : Nat) (order : List Nat) : List Nat :=
  (List.range order.length).filterMap
    (fun i => if order[i]? = some p then some (i + 1) else none)

theorem exportTargetsAux_shift (order : List Nat) (p : Nat) :
    ∀ i, exportTargetsAux order p (i + 1) = (exportTargetsAux order p i).map (· + 1) := by
  induction order with
  | nil => intro i; simp [exportTargetsAux]
  | cons q rest ih =>
    intro i
    by_cases h : q = p
    · simp [exportTargetsAux, h, ih]
    · simp [exportTargetsAux, h, ih]

theorem exportTargets_eq_spec (p : Nat) :
    ∀ order : List Nat, exportTargets order p = occurrencePositionsSpec p order := by
  intro order
  unfold exportTargets
  induction order with
  | nil => simp [exportTargetsAux, occurrencePositionsSpec]
  | cons q rest ih =>
    have hcons : occurrencePositionsSpec p (q :: rest)
        = (if q = p then [1] else []) ++ (occurrencePositionsSpec p rest).map (· + 1) := by
      unfold occurrencePositionsSpec
      rw [List.length_cons, List.range_succ_eq_map, List.filterMap_cons, List.filterMap_map,
        List.map_filterMap]
      by_cases h : q = p
      · simp [h, Function.comp_def, apply_ite]
      · simp [h, Function.comp_def, apply_ite, Ne.symm h]
    rw [hcons]
    have hshift := exportTargetsAux_shift rest p 0
    by_cases h : q = p
    · simp [exportTargetsAux, h, hshift, ih]
    · simp [exportTargetsAux, h, hshift, ih]

theorem foldl_append_bind {α β : Type} (g : α → List β) :
    ∀ (l : List α) (acc : List β),
      l.foldl (fun acc2 a => if (g a).isEmpty then acc2 else acc2 ++ g a) acc
        = acc ++ l.bind g := by
  intro l
  induction l with
  | nil => intro acc; simp
  | cons a t ih =>
    intro acc
    simp only [List.foldl_cons]
    by_cases h : (g a).isEmpty
    · have hnil : g a = [] := by simpa [List.isEmpty_iff] using h
      simp [h, ih, hnil]
    · simp [h, ih, List.append_assoc]

/-- C4: remapping for export emits, for each input, exactly one copy per
1-based position at which its page number occurs in the export sequence,
with the page number rewritten to that position, and emits nothing when
the page does not occur; in particular one input on page 1 of a 1-page
document duplicated twice yields copies on output pages 1, 2 and 3. -/
theorem remapAnnotationsForExport_matches_spec {α : Type}
    (annots : List (PlacedAnnot α)) (exportPageOrder : List Nat) :
    remapAnnotationsForExport annots exportPageOrder
        = annots.bind
            (fun a => (occurrencePositionsSpec a.pageNumber exportPageOrder).map
              (fun t => { a with pageNumber := t })) ∧
    remapAnnotationsForExport [(⟨1, 0⟩ : PlacedAnnot Nat)] [1, 1, 1]
        = [⟨1, 0⟩, ⟨2, 0⟩, ⟨3, 0⟩] := by
  constructor
  · unfold remapAnnotationsForExport
    by_cases hempty : annots.isEmpty
    · have : annots = [] := by simpa [List.isEmpty_iff] using hempty
      simp [hempty, this]
    · simp only [hempty, if_neg, Bool.false_eq_true, ite_false]
      have hfun :
          (fun (mapped : List (PlacedAnnot α)) (a : PlacedAnnot α) =>
            let targets := exportTargets exportPageOrder a.pageNumber
            if targets.isEmpty then mapped
            else mapped ++ targets.map (fun t => { a with pageNumber := t }))
          = fun (mapped : List (PlacedAnnot α)) (a : PlacedAnnot α) =>
              if ((exportTargets exportPageOrder a.pageNumber).map
                    (fun t => { a with pageNumber := t })).isEmpty then mapped
              else mapped ++ (exportTargets exportPageOrder a.pageNumber).map
                    (fun t => { a with pageNumber := t }) := by
        funext mapped a
        by_cases h : (exportTargets exportPageOrder a.pageNumber).isEmpty
        · have hnil : exportTargets exportPageOrder a.pageNumber = [] := by
            simpa [List.isEmpty_iff] using h
          simp [h, hnil]
        · have hne : exportTargets exportPageOrder a.pageNumber ≠ [] := by
            simpa [List.isEmpty_iff] using h
          simp [h, List.isEmpty_iff, hne]
      rw [hfun, foldl_append_bind]
      simp only [List.nil_append]
      congr 1
      funext a
      rw [exportTargets_eq_spec]
  · decide

/-- Byte buffer contents, modelling a `Uint8Array`. -/
abbrev ByteBuf := List Nat

/-- Heap of allocated byte buffers: buffer identity is the allocation
index, so aliasing and in-place mutation are observable. -/
structure BufHeap where
  bufs : List ByteBuf

/-- Contents currently stored at a buffer reference. -/
def BufHeap.read (h : BufHeap) (i : Nat) : ByteBuf := (h.bufs[i]?).getD []

/-- Allocate a fresh buffer holding the given contents and return its
reference. -/
def BufHeap.alloc (h : BufHeap) (b : ByteBuf) : BufHeap × Nat :=
  (⟨h.bufs ++ [b]⟩, h.bufs.length)

/-- Overwrite the contents stored at an existing buffer reference. -/
def BufHeap.write (h : BufHeap) (i : Nat) (b : ByteBuf) : BufHeap :=
  ⟨h.bufs.set i b⟩

/-- Shared buffer discipline of `applyHighlightAnnotations`,
`applyImageAnnotations`, `applyTextAnnotations` and `applyDrawAnnotations`
in `src/pdfService.js`: with no annotations the stage returns its input
buffer unchanged; otherwise it copies the input bytes (`bytes.slice()`),
hands only that copy to `PDFDocument.load` (modelled as an arbitrary
in-place write `loadEffect` on the copy), and allocates a fresh buffer for
the `pdfDoc.save()` output (an arbitrary function `process` of the input
contents). The PDF computation itself is universally quantified because
the frame property holds for every choice of it. -/
def exportStageBuf (process loadEffect : ByteBuf → ByteBuf) (hasAnnots : Bool)
    (h : BufHeap) (input : Nat) : BufHeap × Nat :=
  if !hasAnnots then (h, input)
  else
    let src := h.read input
    let alloc1 := h.alloc src
    let h2 := alloc1.1.write alloc1.2 (loadEffect src)
    h2.alloc (process src)

/-- One stage of the export pipeline assembled by the export button handler
in `src/app.js`. The first stage, `applyPageProperties`, and the signature
and shape stages are imported by `src/app.js` but their bodies are not in
the repository snapshot; they are modelled from the spec: every stage
treats the working document bytes as an explicit accumulator with the same
copy-load-save discipline as the four stages present in the source. -/
structure StageSpec where
  hasAnnots : Bool
  process : ByteBuf → ByteBuf
  loadEffect : ByteBuf → ByteBuf

/-- The export button handler of `src/app.js`: thread the working bytes
through the stages, each stage output becoming the next stage input. -/
def runExportPipeline (stages : List StageSpec) (h : BufHeap) (input : Nat) : BufHeap × Nat :=
  stages.foldl (fun acc s => exportStageBuf s.process s.loadEffect s.hasAnnots acc.1 acc.2)
    (h, input)

theorem exportStageBuf_size_le (process loadEffect : ByteBuf → ByteBuf) (hasAnnots : Bool)
    (h : BufHeap) (input : Nat) :
    h.bufs.length ≤ (exportStageBuf process loadEffect hasAnnots h input).1.bufs.length := by
  by_cases hb : hasAnnots
  · simp [exportStageBuf, hb, BufHeap.alloc, BufHeap.write, List.length_set]
  · simp [exportStageBuf, hb]

theorem exportStageBuf_frame (process loadEffect : ByteBuf → ByteBuf) (hasAnnots : Bool)
    (h : BufHeap) (input i : Nat) (hi : i < h.bufs.length) :
    (exportStageBuf process loadEffect hasAnnots h input).1.read i = h.read i := by
  by_cases hb : hasAnnots
  · simp only [exportStageBuf, hb, Bool.not_true, Bool.false_eq_true, if_false,
      BufHeap.alloc, BufHeap.write, BufHeap.read]
    have hlen1 : i < (h.bufs ++ [h.read input]).length := by
      simp [List.length_append]; omega
    have hlen2 : i < ((h.bufs ++ [h.read input]).set h.bufs.length
        (loadEffect (h.read input))).length := by
      simp [List.length_set, List.length_append]; omega
    simp only [BufHeap.read] at hlen1 hlen2
    rw [List.getElem?_append_left hlen2]
    rw [List.getElem?_set_ne (by omega)]
    rw [List.getElem?_append_left hi]
  · simp [exportStageBuf, hb]

theorem runExportPipeline_frame (stages : List StageSpec) :
    ∀ (h : BufHeap) (input i : Nat), i < h.bufs.length →
      (runExportPipeline stages h input).1.read i = h.read i := by
  induction stages with
  | nil => intro h input i hi; simp [runExportPipeline]
  | cons s rest ih =>
    intro h input i hi
    have hstep := exportStageBuf_frame s.process s.loadEffect s.hasAnnots h input i hi
    have hsize := exportStageBuf_size_le s.process s.loadEffect s.hasAnnots h input
    have hrest := ih (exportStageBuf s.process s.loadEffect s.hasAnnots h input).1
      (exportStageBuf s.process s.loadEffect s.hasAnnots h input).2 i (by omega)
    simp only [runExportPipeline, List.foldl_cons] at *
    rw [hrest, hstep]

/-- C5: every export stage preserves the contents of every buffer that
existed before it ran (in particular its own input buffer), and after the
whole export pipeline runs, the originally loaded document bytes are
byte-for-byte identical to a defensive copy taken at load time. -/
theorem exportPipeline_original_bytes_immutable
    (process loadEffect : ByteBuf → ByteBuf) (hasAnnots : Bool)
    (stages : List StageSpec) (h : BufHeap) (input origRef copyRef : Nat)
    (horig : origRef < h.bufs.length) (hcopy : copyRef < h.bufs.length)
    (heq : h.read copyRef = h.read origRef) :
    (exportStageBuf process loadEffect hasAnnots h input).1.read origRef = h.read origRef ∧
    (runExportPipeline stages h input).1.read origRef = h.read origRef ∧
    (runExportPipeline stages h input).1.read copyRef
        = (runExportPipeline stages h input).1.read origRef := by
  refine ⟨exportStageBuf_frame process loadEffect hasAnnots h input origRef horig,
    runExportPipeline_frame stages h input origRef horig, ?_⟩
  rw [runExportPipeline_frame stages h input origRef horig,
    runExportPipeline_frame stages h input copyRef hcopy, heq]

/-- Witness for C5 at a concrete heap with one pipeline stage: the loaded
bytes and the defensive copy both survive a stage whose simulated
`PDFDocument.load` clobbers the buffer handed to it. -/
theorem exportPipeline_original_bytes_immutable_witness :
    (runExportPipeline [⟨true, fun b => b ++ [1], fun _ => []⟩]
        ⟨[[37, 80, 68, 70], [37, 80, 68, 70]]⟩ 0).1.read 0 = [37, 80, 68, 70] ∧
    (runExportPipeline [⟨true, fun b => b ++ [1], fun _ => []⟩]
        ⟨[[37, 80, 68, 70], [37, 80, 68, 70]]⟩ 0).1.read 1
      = (runExportPipeline [⟨true, fun b => b ++ [1], fun _ => []⟩]
        ⟨[[37, 80, 68, 70], [37, 80, 68, 70]]⟩ 0).1.read 0 := by
  have h := exportPipeline_original_bytes_immutable (fun b => b ++ [1]) (fun _ => []) true
    [⟨true, fun b => b ++ [1], fun _ => []⟩] ⟨[[37, 80, 68, 70], [37, 80, 68, 70]]⟩ 0 0 1
    (by simp) (by simp) (by rfl)
  refine ⟨?_, h.2.2⟩
  rw [h.2.1]
  rfl


/-- The twelve standard fonts reachable through `FONT_MAP` in
`src/pdfService.js`. -/
inductive StandardFont where
  | helvetica | helveticaBold | helveticaOblique | helveticaBoldOblique
  | timesRoman | timesBold | timesItalic | timesBoldItalic
  | courier | courierBold | courierOblique | courierBoldOblique
deriving DecidableEq

/-- One `FONT_MAP` family entry: regular, bold, italic and bold-italic
variants. -/
structure FontVariants where
  regular : StandardFont
  bold : StandardFont
  italic : StandardFont
  boldItalic : StandardFont

/-- Embeds the `FONT_MAP` lookup `FONT_MAP[fontFamily] ?? FONT_MAP.Helvetica`
from `src/pdfService.js`. -/
def fontMap (fontFamily : String) : FontVariants :=
  if fontFamily = "Helvetica" then
    ⟨.helvetica, .helveticaBold, .helveticaOblique, .helveticaBoldOblique⟩
  else if fontFamily = "Times" then
    ⟨.timesRoman, .timesBold, .timesItalic, .timesBoldItalic⟩
  else if fontFamily = "Courier" then
    ⟨.courier, .courierBold, .courierOblique, .courierBoldOblique⟩
  else ⟨.helvetica, .helveticaBold, .helveticaOblique, .helveticaBoldOblique⟩

/-- Embeds `resolveFontKey(fontFamily, bold, italic)` from
`src/pdfService.js`. -/
def resolveFontKey (fontFamily : String) (bold italic : Bool) : StandardFont :=
  let family := fontMap fontFamily
  if bold && italic then family.boldItalic
  else if bold then family.bold
  else if italic then family.italic
  else family.regular

/-- Drawing operation recorded on a page, modelling the pdf-lib calls
`page.drawImage`, `page.drawText`, `page.drawLine` and
`page.drawRectangle`. Colors are carried as the raw color strings the
source passes to `parseHexColor`; the claims under verification do not
depend on color parsing. -/
inductive DrawOp where
  | drawImage (rect : Rect)
  | drawText (content : String) (x y size : ℚ) (font : StandardFont) (color : String)
  | drawLine (x1 y1 x2 y2 thickness : ℚ) (color : String) (opacity : ℚ)
  | drawRect (rect : Rect) (color : String) (opacity : ℚ)
deriving DecidableEq

/-- One page of a loaded document: its native size plus the drawing
operations applied to it. -/
structure PdfPage where
  width : ℚ
  height : ℚ
  ops : List DrawOp
deriving DecidableEq

/-- A loaded document, as seen by the export stage functions. -/
structure PdfDoc where
  pages : List PdfPage
deriving DecidableEq

/-- Embeds the clamped page index computed identically in
`applyImageAnnotations`, `applyTextAnnotations`, `applyDrawAnnotations`
and `applyHighlightAnnotations`:
`Math.max(0, Math.min(annotation.pageNumber - 1, pageCount - 1))`. -/
def clampPageIndex (pageNumber : Int) (pageCount : Nat) : Int :=
  max 0 (min (pageNumber - 1) ((pageCount : Int) - 1))

/-- Embeds `pdfDoc.getPage(pageIndex)`, which throws when the index is out
of range. -/
def getPage (doc : PdfDoc) (idx : Int) : Except String PdfPage :=
  if h : 0 ≤ idx ∧ idx.toNat < doc.pages.length then
    .ok (doc.pages.get ⟨idx.toNat, h.2⟩)
  else .error "Page index out of range."

/-- Replace the page stored at an index of the document. -/
def setPage (doc : PdfDoc) (idx : Nat) (page : PdfPage) : PdfDoc :=
  ⟨doc.pages.set idx page⟩

/-- Image asset record as consulted by `applyImageAnnotations`: the asset
id and the raw image bytes. -/
structure ImageAsset where
  id : String
  imageData : ByteBuf
deriving DecidableEq

/-- Embeds the `assetMap` lookup of `applyImageAnnotations`: a JavaScript
`Map` built from the asset list keeps the last entry per id. -/
def assetMapGet (assets : List ImageAsset) (assetId : String) : Option ImageAsset :=
  assets.foldl (fun found asset => if asset.id = assetId then some asset else found) none

/-- Supported embedded image kinds. -/
inductive ImageKind where
  | png | jpg
deriving DecidableEq

/-- Byte read with a JavaScript out-of-bounds `undefined` modelled as a
non-byte sentinel value. -/
def byteAt (bytes : ByteBuf) (i : Nat) : Nat := (bytes[i]?).getD 256

/-- Embeds `detectImageType(bytes)` from `src/pdfService.js`. -/
def detectImageType (bytes : ByteBuf) : Option ImageKind :=
  if byteAt bytes 0 = 0x89 ∧ byteAt bytes 1 = 0x50 ∧ byteAt bytes 2 = 0x4e ∧
      byteAt bytes 3 = 0x47 then some .png
  else if byteAt bytes 0 = 0xff ∧ byteAt bytes 1 = 0xd8 then some .jpg
  else none

/-- Image annotation record as consumed by `applyImageAnnotations`. -/
structure ImageAnnot where
  assetId : String
  pageNumber : Int
  x : ℚ
  y : ℚ
  width : ℚ
  height : ℚ
  overlayWidth : ℚ
  overlayHeight : ℚ
deriving DecidableEq

/-- Embeds the body of the `applyImageAnnotations` loop for one
annotation: missing assets are skipped, unsupported image bytes throw,
then the page index is clamped, the page fetched, the overlay snapshot
checked, and the image drawn at the transformed rectangle. -/
def applyImageStep (assets : List ImageAsset) (doc : PdfDoc) (a : ImageAnnot) :
    Except String PdfDoc :=
  match assetMapGet assets a.assetId with
  | none => .ok doc
  | some asset =>
    match detectImageType asset.imageData with
    | none => .error "Only PNG and JPEG images are supported."
    | some _ =>
      let pageIndex := clampPageIndex a.pageNumber doc.pages.length
      match getPage doc pageIndex with
      | .error e => .error e
      | .ok page =>
        if a.overlayWidth = 0 ∨ a.overlayHeight = 0 then
          .error "Missing overlay size for image placement."
        else
          let pdfRect := convertOverlayRectToPdfRect ⟨a.x, a.y, a.width, a.height⟩
            ⟨page.width, page.height⟩ ⟨a.overlayWidth, a.overlayHeight⟩
          .ok (setPage doc pageIndex.toNat
            { page with ops := page.ops ++ [DrawOp.drawImage pdfRect] })

/-- Embeds `applyImageAnnotations(bytes, assets, annotations)` at the
document level. -/
def applyImageAnnotationsDoc (assets : List ImageAsset) (doc : PdfDoc)
    (annots : List ImageAnnot) : Except String PdfDoc :=
  if annots.isEmpty then .ok doc
  else List.foldlM (applyImageStep assets) doc annots

/-- Styled text run as stored on a text annotation, mirroring the span
objects produced by `serializeTextSpans` in `src/app.js`. -/
structure TextSpan where
  text : String
  bold : Bool
  italic : Bool
  underline : Bool
  fontSize : Option ℚ
  color : Option String
deriving DecidableEq

/-- Text annotation record as consumed by `applyTextAnnotations`. -/
structure TextAnnot where
  pageNumber : Int
  x : ℚ
  y : ℚ
  width : ℚ
  height : ℚ
  overlayWidth : ℚ
  overlayHeight : ℚ
  text : String
  fontSize : Option ℚ
  color : Option String
  fontFamily : String
  spans : List TextSpan
deriving DecidableEq

/-- Cursor state threaded through the span-drawing loop of
`applyTextAnnotations`: cursor position, current line height, and the
drawing operations emitted so far. -/
structure TextCursor where
  x : ℚ
  y : ℚ
  lineHeight : ℚ
  ops : List DrawOp
deriving DecidableEq

/-- Embeds the `advanceLine` closure of `applyTextAnnotations`. -/
def advanceLine (rectX baseFontSize : ℚ) (c : TextCursor) : TextCursor :=
  { c with y := c.y - c.lineHeight, x := rectX, lineHeight := baseFontSize * 1.2 }

/-- Embeds the body of the per-part loop of `applyTextAnnotations` for one
newline-free part of a span: draw the text, draw the underline when
requested, advance the cursor and widen the line height. `widthOf` stands
for the external pdf-lib font metric `font.widthOfTextAtSize`. -/
def drawOnePart (widthOf : StandardFont → String → ℚ → ℚ) (fontSize : ℚ)
    (font : StandardFont) (color : String) (underline : Bool) (part : String)
    (c : TextCursor) : TextCursor :=
  if part = "" then c
  else
    let w := widthOf font part fontSize
    let c2 := { c with ops := c.ops ++ [DrawOp.drawText part c.x c.y fontSize font color] }
    let c3 :=
      if underline then
        let underlineOffset := fontSize * 0.15
        { c2 with ops := c2.ops ++
            [DrawOp.drawLine c.x (c.y - underlineOffset) (c.x + w) (c.y - underlineOffset)
              (max 1 (fontSize / 12)) color 1] }
      else c2
    { c3 with x := c3.x + w, lineHeight := max c3.lineHeight (fontSize * 1.2) }

/-- Embeds the `parts.forEach` loop of `applyTextAnnotations`: every part
except the last is followed by a line advance. -/
def drawParts (widthOf : StandardFont → String → ℚ → ℚ) (rectX baseFontSize fontSize : ℚ)
    (font : StandardFont) (color : String) (underline : Bool) :
    List String → TextCursor → TextCursor
  | [], c => c
  | [part], c => drawOnePart widthOf fontSize font color underline part c
  | part :: rest, c =>
      drawParts widthOf rectX baseFontSize fontSize font color underline rest
        (advanceLine rectX baseFontSize
          (drawOnePart widthOf fontSize font color underline part c))

/-- Embeds the per-span body of `applyTextAnnotations`: resolve size,
color and font, split the span text on newlines, and draw the parts. -/
def drawTextSpanRun (widthOf : StandardFont → String → ℚ → ℚ) (fontFamily : String)
    (rectX baseFontSize : ℚ) (baseColor : String) (c : TextCursor) (span : TextSpan) :
    TextCursor :=
  let fontSize := span.fontSize.getD baseFontSize
  let color := span.color.getD baseColor
  let font := resolveFontKey fontFamily span.bold span.italic
  drawParts widthOf rectX baseFontSize fontSize font color span.underline
    (span.text.splitOn "\n") c

/-- Embeds the body of the `applyTextAnnotations` loop for one annotation:
fall back to a single span built from the plain text, clamp the page
index, fetch the page, check the overlay snapshot, then lay the spans out
from the top-left of the transformed rectangle. -/
def applyTextStep (widthOf : StandardFont → String → ℚ → ℚ) (doc : PdfDoc)
    (a : TextAnnot) : Except String PdfDoc :=
  let spans :=
    if !a.spans.isEmpty then a.spans
    else [{ text := a.text, bold := false, italic := false, underline := false,
            fontSize := a.fontSize, color := a.color }]
  let pageIndex := clampPageIndex a.pageNumber doc.pages.length
  match getPage doc pageIndex with
  | .error e => .error e
  | .ok page =>
    if a.overlayWidth = 0 ∨ a.overlayHeight = 0 then
      .error "Missing overlay size for text placement."
    else
      let pdfRect := convertOverlayRectToPdfRect ⟨a.x, a.y, a.width, a.height⟩
        ⟨page.width, page.height⟩ ⟨a.overlayWidth, a.overlayHeight⟩
      let baseFontSize := a.fontSize.getD 16
      let baseColor := a.color.getD "#000000"
      let start : TextCursor :=
        ⟨pdfRect.x, pdfRect.y + pdfRect.height - baseFontSize, baseFontSize * 1.2, []⟩
      let finish := spans.foldl
        (drawTextSpanRun widthOf a.fontFamily pdfRect.x baseFontSize baseColor) start
      .ok (setPage doc pageIndex.toNat { page with ops := page.ops ++ finish.ops })

/-- Embeds `applyTextAnnotations(bytes, annotations)` at the document
level; `widthOf` abstracts the external pdf-lib font metrics. -/
def applyTextAnnotationsDoc (widthOf : StandardFont → String → ℚ → ℚ) (doc : PdfDoc)
    (annots : List TextAnnot) : Except String PdfDoc :=
  if annots.isEmpty then .ok doc
  else List.foldlM (applyTextStep widthOf) doc annots

/-- Freehand draw annotation record as consumed by
`applyDrawAnnotations`. -/
structure DrawAnnot where
  pageNumber : Int
  points : List Pt
  strokeColor : String
  strokeWidth : ℚ
  opacity : Option ℚ
  overlayWidth : ℚ
  overlayHeight : ℚ
deriving DecidableEq

/-- Embeds the segment loop of `applyDrawAnnotations`: one line per pair
of consecutive overlay points, both converted through
`convertOverlayPointToPdfPoint`. -/
def drawSegments (pageSize overlaySize : Size) (thickness : ℚ) (color : String)
    (opacity : ℚ) : List Pt → List DrawOp
  | p1 :: p2 :: rest =>
      let s := convertOverlayPointToPdfPoint p1 pageSize overlaySize
      let e := convertOverlayPointToPdfPoint p2 pageSize overlaySize
      DrawOp.drawLine s.x s.y e.x e.y thickness color opacity ::
        drawSegments pageSize overlaySize thickness color opacity (p2 :: rest)
  | _ => []

/-- Embeds the body of the `applyDrawAnnotations` loop for one annotation:
clamp the page index, fetch the page, check the overlay snapshot, skip
paths of fewer than two points, then draw scaled segments. -/
def applyDrawStep (doc : PdfDoc) (a : DrawAnnot) : Except String PdfDoc :=
  let pageIndex := clampPageIndex a.pageNumber doc.pages.length
  match getPage doc pageIndex with
  | .error e => .error e
  | .ok page =>
    if a.overlayWidth = 0 ∨ a.overlayHeight = 0 then
      .error "Missing overlay size for draw placement."
    else if a.points.length < 2 then .ok doc
    else
      let overlaySize : Size := ⟨a.overlayWidth, a.overlayHeight⟩
      let scaleX := page.width / overlaySize.width
      let scaleY := page.height / overlaySize.height
      let strokeScale := (scaleX + scaleY) / 2
      let ops := drawSegments ⟨page.width, page.height⟩ overlaySize
        (a.strokeWidth * strokeScale) a.strokeColor (a.opacity.getD 1) a.points
      .ok (setPage doc pageIndex.toNat { page with ops := page.ops ++ ops })

/-- Embeds `applyDrawAnnotations(bytes, annotations)` at the document
level. -/
def applyDrawAnnotationsDoc (doc : PdfDoc) (annots : List DrawAnnot) :
    Except String PdfDoc :=
  if annots.isEmpty then .ok doc
  else List.foldlM applyDrawStep doc annots

/-- Highlight annotation record as created by the highlight gesture in
`src/app.js` and consumed by `applyHighlightAnnotations`. -/
structure HighlightAnnot where
  id : String
  pageNumber : Int
  x : ℚ
  y : ℚ
  width : ℚ
  height : ℚ
  color : String
  opacity : Option ℚ
  overlayWidth : ℚ
  overlayHeight : ℚ
deriving DecidableEq

/-- Embeds the body of the `applyHighlightAnnotations` loop for one
annotation: clamp the page index, fetch the page, check the overlay
snapshot, then draw the transformed rectangle. -/
def applyHighlightStep (doc : PdfDoc) (a : HighlightAnnot) : Except String PdfDoc :=
  let pageIndex := clampPageIndex a.pageNumber doc.pages.length
  match getPage doc pageIndex with
  | .error e => .error e
  | .ok page =>
    if a.overlayWidth = 0 ∨ a.overlayHeight = 0 then
      .error "Missing overlay size for highlight placement."
    else
      let pdfRect := convertOverlayRectToPdfRect ⟨a.x, a.y, a.width, a.height⟩
        ⟨page.width, page.height⟩ ⟨a.overlayWidth, a.overlayHeight⟩
      .ok (setPage doc pageIndex.toNat
        { page with ops := page.ops ++
            [DrawOp.drawRect pdfRect a.color (a.opacity.getD 0.3)] })

/-- Embeds `applyHighlightAnnotations(bytes, annotations)` at the document
level. -/
def applyHighlightAnnotationsDoc (doc : PdfDoc) (annots : List HighlightAnnot) :
    Except String PdfDoc :=
  if annots.isEmpty then .ok doc
  else List.foldlM applyHighlightStep doc annots

theorem except_ok_bind {ε α β : Type} (a : α) (f : α → Except ε β) :
    (Except.ok a >>= f) = f a := rfl

theorem except_error_bind {ε α β : Type} (e : ε) (f : α → Except ε β) :
    ((Except.error e : Except ε α) >>= f) = Except.error e := rfl

theorem foldlM_except_append_ok {ε σ α : Type} (f : σ → α → Except ε σ) :
    ∀ (l1 l2 : List α) (s s1 : σ), List.foldlM f s l1 = .ok s1 →
      List.foldlM f s (l1 ++ l2) = List.foldlM f s1 l2 := by
  intro l1
  induction l1 with
  | nil =>
    intro l2 s s1 h
    simp only [List.foldlM_nil] at h
    rw [show (pure s : Except ε σ) = Except.ok s from rfl] at h
    cases h
    simp
  | cons a t ih =>
    intro l2 s s1 h
    simp only [List.cons_append, List.foldlM_cons] at h ⊢
    cases hfa : f s a with
    | error e =>
      rw [hfa] at h
      rw [except_error_bind] at h
      cases h
    | ok s2 =>
      rw [hfa] at h
      rw [except_ok_bind] at h
      rw [except_ok_bind]
      exact ih l2 s2 s1 h

theorem foldlM_except_cons_error {ε σ α : Type} (f : σ → α → Except ε σ)
    (a : α) (post : List α) (s : σ) (e : ε) (h : f s a = .error e) :
    List.foldlM f s (a :: post) = .error e := by
  simp only [List.foldlM_cons]
  rw [h, except_error_bind]

theorem applyTextStep_pages_length (widthOf : StandardFont → String → ℚ → ℚ)
    (doc : PdfDoc) (a : TextAnnot) (doc2 : PdfDoc)
    (h : applyTextStep widthOf doc a = .ok doc2) :
    doc2.pages.length = doc.pages.length := by
  unfold applyTextStep at h
  cases hg : getPage doc (clampPageIndex a.pageNumber doc.pages.length) with
  | error e =>
    simp only [hg] at h
    cases h
  | ok page =>
    simp only [hg] at h
    by_cases hov : a.overlayWidth = 0 ∨ a.overlayHeight = 0
    · rw [if_pos hov] at h
      cases h
    · rw [if_neg hov] at h
      cases h
      simp [setPage, List.length_set]

theorem applyImageStep_pages_length (assets : List ImageAsset)
    (doc : PdfDoc) (a : ImageAnnot) (doc2 : PdfDoc)
    (h : applyImageStep assets doc a = .ok doc2) :
    doc2.pages.length = doc.pages.length := by
  unfold applyImageStep at h
  cases ha : assetMapGet assets a.assetId with
  | none => simp only [ha] at h; cases h; rfl
  | some asset =>
    simp only [ha] at h
    cases hd : detectImageType asset.imageData with
    | none =>
      simp only [hd] at h
      cases h
    | some kind =>
      simp only [hd] at h
      cases hg : getPage doc (clampPageIndex a.pageNumber doc.pages.length) with
      | error e =>
        simp only [hg] at h
        cases h
      | ok page =>
        simp only [hg] at h
        by_cases hov : a.overlayWidth = 0 ∨ a.overlayHeight = 0
        · rw [if_pos hov] at h
          cases h
        · rw [if_neg hov] at h
          cases h
          simp [setPage, List.length_set]

theorem applyDrawStep_pages_length (doc : PdfDoc) (a : DrawAnnot) (doc2 : PdfDoc)
    (h : applyDrawStep doc a = .ok doc2) :
    doc2.pages.length = doc.pages.length := by
  unfold applyDrawStep at h
  cases hg : getPage doc (clampPageIndex a.pageNumber doc.pages.length) with
  | error e =>
    simp only [hg] at h
    cases h
  | ok page =>
    simp only [hg] at h
    by_cases hov : a.overlayWidth = 0 ∨ a.overlayHeight = 0
    · rw [if_pos hov] at h
      cases h
    · rw [if_neg hov] at h
      by_cases hp : a.points.length < 2
      · rw [if_pos hp] at h
        cases h
        rfl
      · rw [if_neg hp] at h
        cases h
        simp [setPage, List.length_set]

theorem applyHighlightStep_pages_length (doc : PdfDoc) (a : HighlightAnnot) (doc2 : PdfDoc)
    (h : applyHighlightStep doc a = .ok doc2) :
    doc2.pages.length = doc.pages.length := by
  unfold applyHighlightStep at h
  cases hg : getPage doc (clampPageIndex a.pageNumber doc.pages.length) with
  | error e =>
    simp only [hg] at h
    cases h
  | ok page =>
    simp only [hg] at h
    by_cases hov : a.overlayWidth = 0 ∨ a.overlayHeight = 0
    · rw [if_pos hov] at h
      cases h
    · rw [if_neg hov] at h
      cases h
      simp [setPage, List.length_set]

theorem foldlM_pages_length {α : Type} (f : PdfDoc → α → Except String PdfDoc)
    (hf : ∀ d a d2, f d a = .ok d2 → d2.pages.length = d.pages.length) :
    ∀ (l : List α) (d d1 : PdfDoc), List.foldlM f d l = .ok d1 →
      d1.pages.length = d.pages.length := by
  intro l
  induction l with
  | nil =>
    intro d d1 h
    simp only [List.foldlM_nil] at h
    rw [show (pure d : Except String PdfDoc) = .ok d from rfl] at h
    cases h
    rfl
  | cons a t ih =>
    intro d d1 h
    simp only [List.foldlM_cons] at h
    cases hfa : f d a with
    | error e =>
      rw [hfa] at h
      rw [except_error_bind] at h
      cases h
    | ok d2 =>
      rw [hfa] at h
      rw [except_ok_bind] at h
      rw [ih d2 d1 h]
      exact hf d a d2 hfa

theorem getPage_clamp_isOk (doc : PdfDoc) (n : Int) (hne : doc.pages ≠ []) :
    ∃ page, getPage doc (clampPageIndex n doc.pages.length) = .ok page := by
  have hlen : 0 < doc.pages.length := List.length_pos.mpr hne
  have h1 : 0 ≤ clampPageIndex n doc.pages.length := by
    unfold clampPageIndex; omega
  have h2 : (clampPageIndex n doc.pages.length).toNat < doc.pages.length := by
    unfold clampPageIndex; omega
  unfold getPage
  rw [dif_pos (⟨h1, h2⟩ : _ ∧ _)]
  exact ⟨_, rfl⟩

theorem applyTextStep_missing_overlay (widthOf : StandardFont → String → ℚ → ℚ)
    (doc : PdfDoc) (a : TextAnnot) (hne : doc.pages ≠ [])
    (hov : a.overlayWidth = 0 ∨ a.overlayHeight = 0) :
    applyTextStep widthOf doc a = .error "Missing overlay size for text placement." := by
  obtain ⟨page, hp⟩ := getPage_clamp_isOk doc a.pageNumber hne
  unfold applyTextStep
  simp only [hp]
  rw [if_pos hov]

theorem applyImageStep_missing_overlay (assets : List ImageAsset)
    (doc : PdfDoc) (a : ImageAnnot) (asset : ImageAsset) (hne : doc.pages ≠ [])
    (ha : assetMapGet assets a.assetId = some asset)
    (hd : detectImageType asset.imageData ≠ none)
    (hov : a.overlayWidth = 0 ∨ a.overlayHeight = 0) :
    applyImageStep assets doc a = .error "Missing overlay size for image placement." := by
  obtain ⟨page, hp⟩ := getPage_clamp_isOk doc a.pageNumber hne
  obtain ⟨kind, hk⟩ : ∃ kind, detectImageType asset.imageData = some kind := by
    cases hdm : detectImageType asset.imageData with
    | none => exact absurd hdm hd
    | some kind => exact ⟨kind, rfl⟩
  unfold applyImageStep
  simp only [ha, hk, hp]
  rw [if_pos hov]

theorem applyDrawStep_missing_overlay (doc : PdfDoc) (a : DrawAnnot)
    (hne : doc.pages ≠ []) (hov : a.overlayWidth = 0 ∨ a.overlayHeight = 0) :
    applyDrawStep doc a = .error "Missing overlay size for draw placement." := by
  obtain ⟨page, hp⟩ := getPage_clamp_isOk doc a.pageNumber hne
  unfold applyDrawStep
  simp only [hp]
  rw [if_pos hov]

theorem applyHighlightStep_missing_overlay (doc : PdfDoc) (a : HighlightAnnot)
    (hne : doc.pages ≠ []) (hov : a.overlayWidth = 0 ∨ a.overlayHeight = 0) :
    applyHighlightStep doc a = .error "Missing overlay size for highlight placement." := by
  obtain ⟨page, hp⟩ := getPage_clamp_isOk doc a.pageNumber hne
  unfold applyHighlightStep
  simp only [hp]
  rw [if_pos hov]

theorem pages_ne_nil_of_foldlM {α : Type} (f : PdfDoc → α → Except String PdfDoc)
    (hf : ∀ d a d2, f d a = .ok d2 → d2.pages.length = d.pages.length)
    (l : List α) (d d1 : PdfDoc) (h : List.foldlM f d l = .ok d1)
    (hne : d.pages ≠ []) : d1.pages ≠ [] := by
  intro hcon
  apply hne
  have hlen := foldlM_pages_length f hf l d d1 h
  rw [hcon] at hlen
  exact List.length_eq_zero.mp hlen.symm

/-- C6: whenever an export stage reaches an annotation whose overlay size
snapshot is zero or missing, the stage fails with the stage-specific
missing-overlay-size error instead of dividing by zero: no document is
produced and nothing is drawn for that annotation. Stated for the text,
image, draw and highlight stages, for any successfully processed prefix
of the annotation list. -/
theorem exportStages_fail_fast_on_missing_overlay :
    (∀ (widthOf : StandardFont → String → ℚ → ℚ) (doc doc1 : PdfDoc)
        (pre post : List TextAnnot) (a : TextAnnot),
        doc.pages ≠ [] →
        List.foldlM (applyTextStep widthOf) doc pre = .ok doc1 →
        a.overlayWidth = 0 ∨ a.overlayHeight = 0 →
        applyTextAnnotationsDoc widthOf doc (pre ++ a :: post)
          = .error "Missing overlay size for text placement.") ∧
    (∀ (assets : List ImageAsset) (doc doc1 : PdfDoc)
        (pre post : List ImageAnnot) (a : ImageAnnot) (asset : ImageAsset),
        doc.pages ≠ [] →
        List.foldlM (applyImageStep assets) doc pre = .ok doc1 →
        assetMapGet assets a.assetId = some asset →
        detectImageType asset.imageData ≠ none →
        a.overlayWidth = 0 ∨ a.overlayHeight = 0 →
        applyImageAnnotationsDoc assets doc (pre ++ a :: post)
          = .error "Missing overlay size for image placement.") ∧
    (∀ (doc doc1 : PdfDoc) (pre post : List DrawAnnot) (a : DrawAnnot),
        doc.pages ≠ [] →
        List.foldlM applyDrawStep doc pre = .ok doc1 →
        a.overlayWidth = 0 ∨ a.overlayHeight = 0 →
        applyDrawAnnotationsDoc doc (pre ++ a :: post)
          = .error "Missing overlay size for draw placement.") ∧
    (∀ (doc doc1 : PdfDoc) (pre post : List HighlightAnnot) (a : HighlightAnnot),
        doc.pages ≠ [] →
        List.foldlM applyHighlightStep doc pre = .ok doc1 →
        a.overlayWidth = 0 ∨ a.overlayHeight = 0 →
        applyHighlightAnnotationsDoc doc (pre ++ a :: post)
          = .error "Missing overlay size for highlight placement.") := by
  refine ⟨?_, ?_, ?_, ?_⟩
  · intro widthOf doc doc1 pre post a hne hfold hov
    unfold applyTextAnnotationsDoc
    rw [if_neg (by simp)]
    rw [foldlM_except_append_ok _ pre (a :: post) doc doc1 hfold]
    have hne1 : doc1.pages ≠ [] :=
      pages_ne_nil_of_foldlM _ (applyTextStep_pages_length widthOf) pre doc doc1 hfold hne
    exact foldlM_except_cons_error _ a post doc1 _
      (applyTextStep_missing_overlay widthOf doc1 a hne1 hov)
  · intro assets doc doc1 pre post a asset hne hfold ha hd hov
    unfold applyImageAnnotationsDoc
    rw [if_neg (by simp)]
    rw [foldlM_except_append_ok _ pre (a :: post) doc doc1 hfold]
    have hne1 : doc1.pages ≠ [] :=
      pages_ne_nil_of_foldlM _ (applyImageStep_pages_length assets) pre doc doc1 hfold hne
    exact foldlM_except_cons_error _ a post doc1 _
      (applyImageStep_missing_overlay assets doc1 a asset hne1 ha hd hov)
  · intro doc doc1 pre post a hne hfold hov
    unfold applyDrawAnnotationsDoc
    rw [if_neg (by simp)]
    rw [foldlM_except_append_ok _ pre (a :: post) doc doc1 hfold]
    have hne1 : doc1.pages ≠ [] :=
      pages_ne_nil_of_foldlM _ applyDrawStep_pages_length pre doc doc1 hfold hne
    exact foldlM_except_cons_error _ a post doc1 _
      (applyDrawStep_missing_overlay doc1 a hne1 hov)
  · intro doc doc1 pre post a hne hfold hov
    unfold applyHighlightAnnotationsDoc
    rw [if_neg (by simp)]
    rw [foldlM_except_append_ok _ pre (a :: post) doc doc1 hfold]
    have hne1 : doc1.pages ≠ [] :=
      pages_ne_nil_of_foldlM _ applyHighlightStep_pages_length pre doc doc1 hfold hne
    exact foldlM_except_cons_error _ a post doc1 _
      (applyHighlightStep_missing_overlay doc1 a hne1 hov)

/-- Witness for C6: each of the four stages errors on a concrete one-page
document and a concrete annotation with a zero overlay snapshot. -/
theorem exportStages_fail_fast_on_missing_overlay_witness :
    applyTextAnnotationsDoc (fun _ _ _ => 0) ⟨[⟨612, 792, []⟩]⟩
        ([] ++ (⟨1, 0, 0, 10, 10, 0, 0, "hi", none, none, "Helvetica", []⟩ : TextAnnot) :: [])
      = .error "Missing overlay size for text placement." ∧
    applyImageAnnotationsDoc [⟨"a1", [0x89, 0x50, 0x4e, 0x47]⟩] ⟨[⟨612, 792, []⟩]⟩
        ([] ++ (⟨"a1", 1, 0, 0, 10, 10, 0, 0⟩ : ImageAnnot) :: [])
      = .error "Missing overlay size for image placement." ∧
    applyDrawAnnotationsDoc ⟨[⟨612, 792, []⟩]⟩
        ([] ++ (⟨1, [⟨0, 0⟩, ⟨1, 1⟩], "#000000", 2, none, 0, 0⟩ : DrawAnnot) :: [])
      = .error "Missing overlay size for draw placement." ∧
    applyHighlightAnnotationsDoc ⟨[⟨612, 792, []⟩]⟩
        ([] ++ (⟨"h1", 1, 0, 0, 5, 5, "#f59e0b", none, 0, 0⟩ : HighlightAnnot) :: [])
      = .error "Missing overlay size for highlight placement." := by
  have h := exportStages_fail_fast_on_missing_overlay
  refine ⟨?_, ?_, ?_, ?_⟩
  · exact h.1 (fun _ _ _ => 0) ⟨[⟨612, 792, []⟩]⟩ ⟨[⟨612, 792, []⟩]⟩ [] []
      ⟨1, 0, 0, 10, 10, 0, 0, "hi", none, none, "Helvetica", []⟩
      (by simp) rfl (Or.inl rfl)
  · exact h.2.1 [⟨"a1", [0x89, 0x50, 0x4e, 0x47]⟩] ⟨[⟨612, 792, []⟩]⟩ ⟨[⟨612, 792, []⟩]⟩
      [] [] ⟨"a1", 1, 0, 0, 10, 10, 0, 0⟩ ⟨"a1", [0x89, 0x50, 0x4e, 0x47]⟩
      (by simp) rfl (by decide) (by decide) (Or.inl rfl)
  · exact h.2.2.1 ⟨[⟨612, 792, []⟩]⟩ ⟨[⟨612, 792, []⟩]⟩ [] []
      ⟨1, [⟨0, 0⟩, ⟨1, 1⟩], "#000000", 2, none, 0, 0⟩
      (by simp) rfl (Or.inl rfl)
  · exact h.2.2.2 ⟨[⟨612, 792, []⟩]⟩ ⟨[⟨612, 792, []⟩]⟩ [] []
      ⟨"h1", 1, 0, 0, 5, 5, "#f59e0b", none, 0, 0⟩
      (by simp) rfl (Or.inl rfl)

theorem get_zero_eq_head {α : Type} (l : List α) (hne : l ≠ []) (h : 0 < l.length) :
    l.get ⟨0, h⟩ = l.head hne := by
  cases l with
  | nil => exact absurd rfl hne
  | cons a t => rfl

/-- C10: the page index used by the export stages is the clamp
`max(0, min(pageNumber - 1, pageCount - 1))`: it is always a valid index
for a non-empty document so the page fetch never fails, a page number
below 1 resolves to the first page, a page number above the page count
resolves to the last page, and the image stage concretely draws onto the
first or last page instead of signalling an out-of-range error. -/
theorem exportStages_clamp_page_index :
    (∀ (n : Int) (count : Nat), 1 ≤ count →
        0 ≤ clampPageIndex n count ∧ (clampPageIndex n count).toNat < count) ∧
    (∀ (n : Int) (count : Nat), 1 ≤ count → n < 1 → clampPageIndex n count = 0) ∧
    (∀ (n : Int) (count : Nat), 1 ≤ count → (count : Int) < n →
        clampPageIndex n count = (count : Int) - 1) ∧
    (∀ (doc : PdfDoc) (n : Int), doc.pages ≠ [] →
        ∃ page, getPage doc (clampPageIndex n doc.pages.length) = .ok page) ∧
    (∀ (doc : PdfDoc) (a : ImageAnnot) (assets : List ImageAsset) (asset : ImageAsset)
        (hne : doc.pages ≠ []),
        assetMapGet assets a.assetId = some asset →
        detectImageType asset.imageData ≠ none →
        ¬(a.overlayWidth = 0 ∨ a.overlayHeight = 0) →
        (doc.pages.length : Int) < a.pageNumber →
        applyImageStep assets doc a
          = .ok (setPage doc (doc.pages.length - 1)
              { doc.pages.getLast hne with
                ops := (doc.pages.getLast hne).ops ++
                  [DrawOp.drawImage (convertOverlayRectToPdfRect ⟨a.x, a.y, a.width, a.height⟩
                    ⟨(doc.pages.getLast hne).width, (doc.pages.getLast hne).height⟩
                    ⟨a.overlayWidth, a.overlayHeight⟩)] })) ∧
    (∀ (doc : PdfDoc) (a : ImageAnnot) (assets : List ImageAsset) (asset : ImageAsset)
        (hne : doc.pages ≠ []),
        assetMapGet assets a.assetId = some asset →
        detectImageType asset.imageData ≠ none →
        ¬(a.overlayWidth = 0 ∨ a.overlayHeight = 0) →
        a.pageNumber < 1 →
        applyImageStep assets doc a
          = .ok (setPage doc 0
              { doc.pages.head hne with
                ops := (doc.pages.head hne).ops ++
                  [DrawOp.drawImage (convertOverlayRectToPdfRect ⟨a.x, a.y, a.width, a.height⟩
                    ⟨(doc.pages.head hne).width, (doc.pages.head hne).height⟩
                    ⟨a.overlayWidth, a.overlayHeight⟩)] })) := by
  have hbound : ∀ (n : Int) (count : Nat), 1 ≤ count →
      0 ≤ clampPageIndex n count ∧ (clampPageIndex n count).toNat < count := by
    intro n count hc
    unfold clampPageIndex
    constructor <;> omega
  refine ⟨hbound, ?_, ?_, ?_, ?_, ?_⟩
  · intro n count hc hlt
    unfold clampPageIndex
    omega
  · intro n count hc hgt
    unfold clampPageIndex
    omega
  · intro doc n hne
    exact getPage_clamp_isOk doc n hne
  · intro doc a assets asset hne ha hd hov hgt
    have hlen : 0 < doc.pages.length := List.length_pos.mpr hne
    obtain ⟨kind, hk⟩ : ∃ kind, detectImageType asset.imageData = some kind := by
      cases hdm : detectImageType asset.imageData with
      | none => exact absurd hdm hd
      | some kind => exact ⟨kind, rfl⟩
    have hclamp : clampPageIndex a.pageNumber doc.pages.length
        = (doc.pages.length : Int) - 1 := by
      unfold clampPageIndex
      omega
    have htn : ((doc.pages.length : Int) - 1).toNat = doc.pages.length - 1 := by omega
    have hget : getPage doc ((doc.pages.length : Int) - 1) = .ok (doc.pages.getLast hne) := by
      unfold getPage
      have h1 : (0 : Int) ≤ (doc.pages.length : Int) - 1 := by omega
      have h2 : ((doc.pages.length : Int) - 1).toNat < doc.pages.length := by omega
      rw [dif_pos (⟨h1, h2⟩ : _ ∧ _)]
      congr 1
      rw [List.getLast_eq_get]
      congr 1
      exact Fin.ext htn
    unfold applyImageStep
    simp only [ha, hk, hclamp, hget]
    rw [if_neg hov, htn]
  · intro doc a assets asset hne ha hd hov hlt
    have hlen : 0 < doc.pages.length := List.length_pos.mpr hne
    obtain ⟨kind, hk⟩ : ∃ kind, detectImageType asset.imageData = some kind := by
      cases hdm : detectImageType asset.imageData with
      | none => exact absurd hdm hd
      | some kind => exact ⟨kind, rfl⟩
    have hclamp : clampPageIndex a.pageNumber doc.pages.length = 0 := by
      unfold clampPageIndex
      omega
    have hget : getPage doc 0 = .ok (doc.pages.head hne) := by
      unfold getPage
      have h1 : (0 : Int) ≤ (0 : Int) := le_refl 0
      have h2 : (0 : Int).toNat < doc.pages.length := by omega
      rw [dif_pos (⟨h1, h2⟩ : _ ∧ _)]
      congr 1
      exact get_zero_eq_head doc.pages hne hlen
    unfold applyImageStep
    simp only [ha, hk, hclamp, hget]
    rw [if_neg hov]
    rfl

/-- Witness for C10: on a concrete two-page document, an image annotation
with page number 5 draws onto the last page and one with page number 0
draws onto the first page. -/
theorem exportStages_clamp_page_index_witness :
    (0 ≤ clampPageIndex 5 2 ∧ (clampPageIndex 5 2).toNat < 2) ∧
    applyImageStep [⟨"a1", [0xff, 0xd8]⟩] ⟨[⟨100, 200, []⟩, ⟨300, 400, []⟩]⟩
        ⟨"a1", 5, 0, 0, 10, 10, 50, 50⟩
      = .ok (setPage ⟨[⟨100, 200, []⟩, ⟨300, 400, []⟩]⟩ 1
          { width := 300, height := 400,
            ops := [DrawOp.drawImage
              (convertOverlayRectToPdfRect ⟨0, 0, 10, 10⟩ ⟨300, 400⟩ ⟨50, 50⟩)] }) ∧
    applyImageStep [⟨"a1", [0xff, 0xd8]⟩] ⟨[⟨100, 200, []⟩, ⟨300, 400, []⟩]⟩
        ⟨"a1", 0, 0, 0, 10, 10, 50, 50⟩
      = .ok (setPage ⟨[⟨100, 200, []⟩, ⟨300, 400, []⟩]⟩ 0
          { width := 100, height := 200,
            ops := [DrawOp.drawImage
              (convertOverlayRectToPdfRect ⟨0, 0, 10, 10⟩ ⟨100, 200⟩ ⟨50, 50⟩)] }) := by
  have h := exportStages_clamp_page_index
  refine ⟨h.1 5 2 (by norm_num), ?_, ?_⟩
  · exact h.2.2.2.2.1 ⟨[⟨100, 200, []⟩, ⟨300, 400, []⟩]⟩ ⟨"a1", 5, 0, 0, 10, 10, 50, 50⟩
      [⟨"a1", [0xff, 0xd8]⟩] ⟨"a1", [0xff, 0xd8]⟩ (by simp) (by decide) (by decide)
      (by norm_num) (by norm_num)
  · exact h.2.2.2.2.2 ⟨[⟨100, 200, []⟩, ⟨300, 400, []⟩]⟩ ⟨"a1", 0, 0, 0, 10, 10, 50, 50⟩
      [⟨"a1", [0xff, 0xd8]⟩] ⟨"a1", [0xff, 0xd8]⟩ (by simp) (by decide) (by decide)
      (by norm_num) (by norm_num)

/-- Embeds the highlight draft pushed into `state.highlightAnnotations` on
pointerdown in `src/app.js`: anchored at the start point with zero size
and the current tool defaults. -/
def highlightDraft (newId : String) (page : Int) (color : String)
    (opacity overlayW overlayH : ℚ) (start : Pt) : HighlightAnnot :=
  { id := newId, pageNumber := page, x := start.x, y := start.y, width := 0, height := 0,
    color := color, opacity := some opacity, overlayWidth := overlayW,
    overlayHeight := overlayH }

/-- Embeds one pointermove update of the highlight gesture: the normalized
bounding box of the anchor and the current point. -/
def highlightMove (start : Pt) (hl : HighlightAnnot) (current : Pt) : HighlightAnnot :=
  { hl with
    x := min start.x current.x
    y := min start.y current.y
    width := abs (current.x - start.x)
    height := abs (current.y - start.y) }

/-- Draft geometry after a pointerdown at `start` followed by the given
pointermove points. -/
def highlightAfterMoves (start : Pt) (hl : HighlightAnnot) (moves : List Pt) :
    HighlightAnnot :=
  moves.foldl (highlightMove start) hl

/-- Embeds the pointerup handler of the highlight gesture in `src/app.js`:
a draft narrower or shorter than 2 pixels is filtered out of the store by
id; otherwise the store is left as is. -/
def finishHighlightOnUp (annots : List HighlightAnnot) (hl : HighlightAnnot) :
    List HighlightAnnot :=
  if hl.width < 2 ∨ hl.height < 2 then annots.filter (fun item => item.id ≠ hl.id)
  else annots

/-- Complete highlight drag gesture: pointerdown appends the draft to the
store, moves mutate it in place, pointerup commits or discards it. -/
def runHighlightGesture (annots : List HighlightAnnot) (newId : String) (page : Int)
    (color : String) (opacity overlayW overlayH : ℚ) (start : Pt) (moves : List Pt) :
    List HighlightAnnot :=
  let hl := highlightAfterMoves start
    (highlightDraft newId page color opacity overlayW overlayH start) moves
  finishHighlightOnUp (annots ++ [hl]) hl

theorem highlightAfterMoves_id (start : Pt) (moves : List Pt) :
    ∀ hl : HighlightAnnot, (highlightAfterMoves start hl moves).id = hl.id := by
  induction moves with
  | nil => intro hl; rfl
  | cons m rest ih =>
    intro hl
    show (highlightAfterMoves start (highlightMove start hl m) rest).id = hl.id
    rw [ih (highlightMove start hl m)]
    rfl

/-- C9: a highlight drag gesture whose draft ends narrower or shorter than
2 pixels leaves the store exactly as it was, persisting zero highlight
annotations from the gesture; otherwise the committed draft stays in the
store. -/
theorem highlightGesture_min_size_discard
    (annots : List HighlightAnnot) (newId : String) (page : Int) (color : String)
    (opacity overlayW overlayH : ℚ) (start : Pt) (moves : List Pt) (hl : HighlightAnnot)
    (hhl : hl = highlightAfterMoves start
      (highlightDraft newId page color opacity overlayW overlayH start) moves)
    (hfresh : ∀ item ∈ annots, item.id ≠ newId) :
    (hl.width < 2 ∨ hl.height < 2 →
      runHighlightGesture annots newId page color opacity overlayW overlayH start moves
          = annots ∧
      (runHighlightGesture annots newId page color opacity overlayW overlayH
          start moves).countP (fun item => item.id = newId) = 0) ∧
    (¬(hl.width < 2 ∨ hl.height < 2) →
      runHighlightGesture annots newId page color opacity overlayW overlayH start moves
          = annots ++ [hl]) := by
  have hid : hl.id = newId := by
    rw [hhl, highlightAfterMoves_id]
    rfl
  constructor
  · intro hsmall
    have hres : runHighlightGesture annots newId page color opacity overlayW overlayH
        start moves = annots := by
      unfold runHighlightGesture
      rw [← hhl]
      unfold finishHighlightOnUp
      rw [if_pos hsmall]
      rw [List.filter_append]
      have h1 : annots.filter (fun item => item.id ≠ hl.id) = annots := by
        apply List.filter_eq_self.mpr
        intro item hmem
        simpa [hid] using hfresh item hmem
      have h2 : [hl].filter (fun item => item.id ≠ hl.id) = [] := by
        simp
      rw [h1, h2, List.append_nil]
    refine ⟨hres, ?_⟩
    rw [hres]
    apply List.countP_eq_zero.mpr
    intro item hmem
    simpa using hfresh item hmem
  · intro hbig
    unfold runHighlightGesture
    rw [← hhl]
    unfold finishHighlightOnUp
    rw [if_neg hbig]

/-- Witness for C9: a 1-by-1 pixel drag leaves the empty store empty,
while a 10-by-10 pixel drag commits its draft. -/
theorem highlightGesture_min_size_discard_witness :
    runHighlightGesture [] "hl-1" 1 "#f59e0b" 0.35 600 800 ⟨0, 0⟩ [⟨1, 1⟩] = [] ∧
    runHighlightGesture [] "hl-2" 1 "#f59e0b" 0.35 600 800 ⟨0, 0⟩ [⟨10, 10⟩]
      = [highlightAfterMoves ⟨0, 0⟩
          (highlightDraft "hl-2" 1 "#f59e0b" 0.35 600 800 ⟨0, 0⟩) [⟨10, 10⟩]] := by
  constructor
  · exact (highlightGesture_min_size_discard [] "hl-1" 1 "#f59e0b" 0.35 600 800 ⟨0, 0⟩
      [⟨1, 1⟩] _ rfl (by simp)).1
      (Or.inl (by norm_num [highlightAfterMoves, highlightMove, highlightDraft])) |>.1
  · exact (highlightGesture_min_size_discard [] "hl-2" 1 "#f59e0b" 0.35 600 800 ⟨0, 0⟩
      [⟨10, 10⟩] _ rfl (by simp)).2
      (by
        rw [not_or]
        constructor <;> norm_num [highlightAfterMoves, highlightMove, highlightDraft])

/-- Inherited style snapshot threaded through the tree walk of
`serializeTextSpans` in `src/app.js`. -/
structure SpanStyle where
  bold : Bool
  italic : Bool
  underline : Bool
  fontSize : Option ℚ
  color : Option String
deriving DecidableEq

/-- Inline style attributes of an element node as read by the walk:
`fontSize` holds the parsed nonzero pixel value when the style is set and
parses (the source keeps the current size when `parseInt` fails or yields
zero, which `none` also models); `color` is `none` for an empty style. -/
structure ElemStyle where
  fontWeight : String
  fontStyle : String
  textDecorationLine : String
  fontSize : Option ℚ
  color : Option String
deriving DecidableEq

/-- Content tree of the editable region: text leaves, BR elements, and
style-bearing elements with children. -/
inductive DomNode where
  | text (s : String)
  | br
  | el (tag : String) (style : ElemStyle) (children : List DomNode)

/-- Embeds the per-element style inheritance of the walk in
`serializeTextSpans`. -/
def updateStyle (style : ElemStyle) (currentStyle : SpanStyle) : SpanStyle :=
  let s1 := if style.fontWeight = "bold" then { currentStyle with bold := true }
    else currentStyle
  let s2 := if style.fontStyle = "italic" then { s1 with italic := true } else s1
  let s3 := if style.textDecorationLine = "underline" then { s2 with underline := true }
    else s2
  let s4 := match style.fontSize with
    | some v => { s3 with fontSize := some v }
    | none => s3
  match style.color with
  | some c => { s4 with color := some c }
  | none => s4

/-- Span record built by `pushSpan` from a text run and the inherited
style. -/
def mkSpan (text : String) (st : SpanStyle) : TextSpan :=
  ⟨text, st.bold, st.italic, st.underline, st.fontSize, st.color⟩

mutual

/-- Embeds the recursive `walk` of `serializeTextSpans`: text leaves push
their text, BR pushes a newline span, elements recurse with the updated
style and DIV elements push a trailing newline span with the outer
style. Empty text pushes nothing (`pushSpan` ignores empty strings). -/
def walkNode : DomNode → SpanStyle → List TextSpan
  | .text s, currentStyle => if s = "" then [] else [mkSpan s currentStyle]
  | .br, currentStyle => [mkSpan "\n" currentStyle]
  | .el tag style children, currentStyle =>
      let nextStyle := updateStyle style currentStyle
      walkChildren children nextStyle ++
        (if tag = "DIV" then [mkSpan "\n" currentStyle] else [])

/-- Walk of a child list in document order. -/
def walkChildren : List DomNode → SpanStyle → List TextSpan
  | [], _ => []
  | c :: rest, st => walkNode c st ++ walkChildren rest st

end

/-- Embeds `serializeTextSpans(contentEl, defaults)` from `src/app.js`,
applied to the child nodes of the editable region: an empty result is
replaced by a single empty span carrying the base style. -/
def serializeTextSpans (children : List DomNode) (defaults : SpanStyle) : List TextSpan :=
  let spans := walkChildren children defaults
  if spans.isEmpty then [mkSpan "" defaults] else spans

mutual

/-- DOM `textContent`: concatenation of all descendant text leaves; BR
contributes nothing. -/
def nodeTextContent : DomNode → String
  | .text s => s
  | .br => ""
  | .el _ _ children => childrenTextContent children

/-- Concatenated `textContent` of a child list. -/
def childrenTextContent : List DomNode → String
  | [] => ""
  | c :: rest => nodeTextContent c ++ childrenTextContent rest

end

/-- Embeds the `input` handler of `attachTextInteractions` in
`src/app.js`: `annotation.text = content.textContent ?? ""` and
`annotation.spans = serializeTextSpans(content, baseStyle)`. -/
def handleTextInput (a : TextAnnot) (content : List DomNode) (baseStyle : SpanStyle) :
    TextAnnot :=
  { a with text := childrenTextContent content
           spans := serializeTextSpans content baseStyle }

/-- Concatenation of the texts of a span list, newline markers included. -/
def spanConcat : List TextSpan → String
  | [] => ""
  | s :: rest => s.text ++ spanConcat rest

mutual

/-- Whether a node produces a newline marker during serialization: a BR
node, a DIV element, or any descendant that does. -/
def nodeHasBreak : DomNode → Bool
  | .text _ => false
  | .br => true
  | .el tag _ children => tag = "DIV" || childrenHaveBreak children

/-- Whether any node of a child list produces a newline marker. -/
def childrenHaveBreak : List DomNode → Bool
  | [] => false
  | c :: rest => nodeHasBreak c || childrenHaveBreak rest

end

/-- C8 counterexample: for the editable region with children
text "a", BR, text "b" the handler stores text "ab" (DOM textContent
drops the line break) while the spans concatenate to "a", newline, "b",
so the concatenation of span texts differs from the text field. -/
theorem textSpans_concat_ne_text_counterexample :
    spanConcat (handleTextInput
        ⟨1, 0, 0, 10, 10, 600, 800, "", none, none, "Helvetica", []⟩
        [.text "a", .br, .text "b"] ⟨false, false, false, none, none⟩).spans
      ≠ (handleTextInput
        ⟨1, 0, 0, 10, 10, 600, 800, "", none, none, "Helvetica", []⟩
        [.text "a", .br, .text "b"] ⟨false, false, false, none, none⟩).text := by
  simp only [handleTextInput, serializeTextSpans, walkChildren, walkNode,
    childrenTextContent, nodeTextContent, mkSpan, spanConcat]
  decide

theorem spanConcat_append (l1 l2 : List TextSpan) :
    spanConcat (l1 ++ l2) = spanConcat l1 ++ spanConcat l2 := by
  induction l1 with
  | nil => simp [spanConcat]
  | cons s rest ih => simp [spanConcat, ih, String.append_assoc]

mutual

theorem walkNode_concat : ∀ (node : DomNode) (st : SpanStyle),
    nodeHasBreak node = false → spanConcat (walkNode node st) = nodeTextContent node
  | .text s, st, _ => by
    by_cases hs : s = ""
    · simp [walkNode, nodeTextContent, spanConcat, hs]
    · simp [walkNode, nodeTextContent, spanConcat, hs, mkSpan]
  | .br, _, h => by simp [nodeHasBreak] at h
  | .el tag style children, st, h => by
    have hparts : ¬(tag = "DIV") ∧ childrenHaveBreak children = false := by
      constructor
      · intro htag
        rw [nodeHasBreak] at h
        simp [htag] at h
      · rw [nodeHasBreak] at h
        exact (Bool.or_eq_false_iff.mp h).2
    rw [walkNode, nodeTextContent]
    rw [if_neg hparts.1, List.append_nil]
    exact walkChildren_concat children (updateStyle style st) hparts.2

theorem walkChildren_concat : ∀ (children : List DomNode) (st : SpanStyle),
    childrenHaveBreak children = false →
    spanConcat (walkChildren children st) = childrenTextContent children
  | [], _, _ => rfl
  | c :: rest, st, h => by
    have hparts := Bool.or_eq_false_iff.mp (by rw [childrenHaveBreak] at h; exact h)
    rw [walkChildren, childrenTextContent, spanConcat_append]
    rw [walkNode_concat c st hparts.1, walkChildren_concat rest st hparts.2]

end

/-- C8 amended: after an edit of a region containing no line-break nodes
(no BR and no DIV), the concatenation of the re-derived span texts equals
the annotation text field; with line breaks present the span
concatenation carries explicit newline markers that the text field (DOM
textContent) omits. -/
theorem textSpans_concat_eq_text_without_breaks (a : TextAnnot)
    (content : List DomNode) (base : SpanStyle)
    (h : childrenHaveBreak content = false) :
    spanConcat (handleTextInput a content base).spans
      = (handleTextInput a content base).text := by
  show spanConcat (serializeTextSpans content base) = childrenTextContent content
  unfold serializeTextSpans
  by_cases he : (walkChildren content base).isEmpty
  · have hnil : walkChildren content base = [] := by
      simpa [List.isEmpty_iff] using he
    have hmain := walkChildren_concat content base h
    rw [hnil] at hmain
    simp only [he, if_pos]
    rw [← hmain]
    simp [spanConcat, mkSpan]
  · simp only [he, Bool.false_eq_true, if_neg]
    exact walkChildren_concat content base h

/-- Witness for C8 amended: a single unstyled text leaf round-trips, the
span concatenation equalling the stored text. -/
theorem textSpans_concat_eq_text_without_breaks_witness :
    childrenHaveBreak [DomNode.text "Hello World"] = false ∧
    spanConcat (handleTextInput
        ⟨1, 0, 0, 10, 10, 600, 800, "", none, none, "Helvetica", []⟩
        [DomNode.text "Hello World"] ⟨false, false, false, none, none⟩).spans
      = (handleTextInput
        ⟨1, 0, 0, 10, 10, 600, 800, "", none, none, "Helvetica", []⟩
        [DomNode.text "Hello World"] ⟨false, false, false, none, none⟩).text := by
  have hb : childrenHaveBreak [DomNode.text "Hello World"] = false := by
    simp [childrenHaveBreak, nodeHasBreak]
  exact ⟨hb, textSpans_concat_eq_text_without_breaks _ _ _ hb⟩

/-- ASCII lowercase of a string, modelling `String.prototype.toLowerCase`
for file names. -/
def jsToLower (s : String) : String := String.mk (s.data.map Char.toLower)

/-- Suffix test, modelling `String.prototype.endsWith`. -/
def jsEndsWith (s suffix : String) : Bool := suffix.data.isSuffixOf s.data

/-- User-selected file as seen by the resume input handler. -/
structure FileInfo where
  name : String
  mime : String
  bytes : ByteBuf
deriving DecidableEq

/-- Embeds `isPdfFile(file)` from `src/pdfService.js`. -/
def isPdfFile (file : Option FileInfo) : Bool :=
  match file with
  | none => false
  | some f => jsEndsWith (jsToLower f.name) ".pdf" || f.mime = "application/pdf"

/-- Embeds `isPdfBytes(bytes)` from `src/pdfService.js`: at least four
bytes starting with the ASCII header `%PDF`. -/
def isPdfBytes (bytes : ByteBuf) : Bool :=
  if bytes.length < 4 then false
  else decide (bytes.take 4 = [37, 80, 68, 70])

/-- Embeds the fallback accumulator of `hashBytes` in `src/app.js`:
`hash = (hash * 31 + value) >>> 0` over all bytes. -/
def fallbackHash (bytes : ByteBuf) : Nat :=
  bytes.foldl (fun hash value => (hash * 31 + value) % 4294967296) 0

/-- Lowercase hexadecimal rendering of a natural number, modelling
`Number.prototype.toString(16)`. -/
def natToHexString (n : Nat) : String := String.mk (Nat.toDigits 16 n)

/-- Two-digit lowercase hexadecimal rendering of a byte, modelling
`value.toString(16).padStart(2, "0")`. -/
def byteToHex2 (b : Nat) : String :=
  let s := natToHexString b
  if s.length < 2 then "0" ++ s else s

/-- Hex string of a digest, modelling the `Array.from(digest).map(...).join("")`
step of `hashBytes`. -/
def digestToHex (digest : ByteBuf) : String :=
  (digest.map byteToHex2).foldl (fun acc part => acc ++ part) ""

/-- Embeds `hashBytes(bytes)` from `src/app.js`: use SubtleCrypto SHA-256
when available (the external digest is abstracted as `subtle`), otherwise
the 32-bit multiplicative fallback. -/
def hashBytes (subtle : Option (ByteBuf → ByteBuf)) (bytes : ByteBuf) : String :=
  match subtle with
  | some digest => digestToHex (digest bytes)
  | none => natToHexString (fallbackHash bytes)

/-- Image asset as embedded in a serialized session record. -/
structure SessionAsset where
  id : String
  name : String
  imageData : ByteBuf
  naturalWidth : ℚ
  naturalHeight : ℚ
deriving DecidableEq

/-- One tagged record of a serialized session, as produced by
`serializeSessionAnnotations` in `src/app.js`. The shape, signature,
comment and stamp payloads are carried as their serialized field bundles,
which the grouping logic routes without inspecting. -/
inductive SessionAnnot where
  | image (a : ImageAnnot) (asset : Option SessionAsset)
  | text (a : TextAnnot)
  | draw (a : DrawAnnot)
  | highlight (a : HighlightAnnot)
  | shape (payload : String)
  | signature (payload : String)
  | comment (payload : String)
  | stamp (payload : String)
deriving DecidableEq

/-- The annotation collections of `state` in `src/app.js` that session
restoration replaces. -/
structure AnnotState where
  imageAssets : List SessionAsset
  imageAnnotations : List ImageAnnot
  textAnnotations : List TextAnnot
  drawAnnotations : List DrawAnnot
  highlightAnnotations : List HighlightAnnot
  shapeAnnotations : List String
  signatureAnnotations : List String
  commentAnnotations : List String
  stampAnnotations : List String
deriving DecidableEq

/-- Empty annotation collections. -/
def emptyAnnotState : AnnotState := ⟨[], [], [], [], [], [], [], [], []⟩

/-- Embeds `applySessionAnnotations(annotations)` from `src/app.js`:
records are regrouped by kind in order; image assets are deduplicated by
id keeping the first occurrence (the derived `previewUrl` presentation
handle is outside the model). -/
def applySessionAnnotations (records : List SessionAnnot) : AnnotState :=
  records.foldl
    (fun st r =>
      match r with
      | .image a asset =>
        let st2 := match asset with
          | some asset2 =>
            if st.imageAssets.any (fun x => x.id = asset2.id) then st
            else { st with imageAssets := st.imageAssets ++ [asset2] }
          | none => st
        { st2 with imageAnnotations := st2.imageAnnotations ++ [a] }
      | .text a => { st with textAnnotations := st.textAnnotations ++ [a] }
      | .draw a => { st with drawAnnotations := st.drawAnnotations ++ [a] }
      | .highlight a => { st with highlightAnnotations := st.highlightAnnotations ++ [a] }
      | .shape p => { st with shapeAnnotations := st.shapeAnnotations ++ [p] }
      | .signature p => { st with signatureAnnotations := st.signatureAnnotations ++ [p] }
      | .comment p => { st with commentAnnotations := st.commentAnnotations ++ [p] }
      | .stamp p => { st with stampAnnotations := st.stampAnnotations ++ [p] })
    emptyAnnotState

/-- One entry of the session history, carrying the original document
content hash and the serialized annotation records. -/
structure SessionEntry where
  fileName : String
  fileHash : String
  annotations : List SessionAnnot
deriving DecidableEq

/-- Application state touched by session restoration. -/
structure AppState where
  currentFileName : String
  currentFileHash : String
  annots : AnnotState
deriving DecidableEq

/-- Embeds the state effects of `loadPdfBytes` in `src/app.js` on the
session-relevant state: invalid bytes return early leaving state as is;
otherwise all collections and the file name and hash fields are reset and
the session annotations, when given, are applied. -/
def loadPdfBytesModel (st : AppState) (bytes : ByteBuf)
    (sessionData : Option SessionEntry) : AppState :=
  if !isPdfBytes bytes then st
  else
    let st1 : AppState :=
      { currentFileName := "", currentFileHash := "", annots := emptyAnnotState }
    match sessionData with
    | some sd => { st1 with annots := applySessionAnnotations sd.annotations }
    | none => st1

/-- Embeds the `resumeInput` change handler of `src/app.js`: missing file
or pending session returns silently; a non-PDF file is rejected; a hash
mismatch is rejected with the mismatch message before any state change;
otherwise the file name and hash are staged and the bytes are loaded with
the pending session merged. -/
def handleResumeChange (subtle : Option (ByteBuf → ByteBuf)) (st : AppState)
    (pendingSession : Option SessionEntry) (file : Option FileInfo) :
    AppState × String :=
  match file, pendingSession with
  | none, _ => (st, "")
  | some _, none => (st, "")
  | some f, some ps =>
    if !isPdfFile (some f) then (st, "Only PDF files are supported.")
    else
      let hash := hashBytes subtle f.bytes
      if hash ≠ ps.fileHash then
        (st, "Selected file does not match this session. Please reselect.")
      else
        let st1 := { st with currentFileName := ps.fileName
                             currentFileHash := ps.fileHash }
        (loadPdfBytesModel st1 f.bytes (some ps), "Session restored.")

/-- C7: restoring a session entry against a user-supplied PDF whose
recomputed content hash differs from the stored hash is refused with the
mismatch message and leaves the application state untouched; the restored
outcome can only arise when the hashes are equal, in which case the entry
annotations replace the collections. -/
theorem sessionRestore_hash_gate (subtle : Option (ByteBuf → ByteBuf)) (st : AppState)
    (ps : SessionEntry) (f : FileInfo) :
    (isPdfFile (some f) = true →
      hashBytes subtle f.bytes ≠ ps.fileHash →
      handleResumeChange subtle st (some ps) (some f)
        = (st, "Selected file does not match this session. Please reselect.")) ∧
    (∀ st2 : AppState,
      handleResumeChange subtle st (some ps) (some f) = (st2, "Session restored.") →
      hashBytes subtle f.bytes = ps.fileHash) ∧
    (isPdfFile (some f) = true →
      hashBytes subtle f.bytes = ps.fileHash →
      isPdfBytes f.bytes = true →
      handleResumeChange subtle st (some ps) (some f)
        = (⟨"", "", applySessionAnnotations ps.annotations⟩, "Session restored.")) := by
  refine ⟨?_, ?_, ?_⟩
  · intro hpdf hne
    simp [handleResumeChange, hpdf, hne]
  · intro st2 h
    by_cases hpdf : isPdfFile (some f) = true
    · by_cases hhash : hashBytes subtle f.bytes = ps.fileHash
      · exact hhash
      · exfalso
        simp [handleResumeChange, hpdf, hhash, Prod.ext_iff] at h
    · exfalso
      have hfalse : isPdfFile (some f) = false := by simpa using hpdf
      simp [handleResumeChange, hfalse, Prod.ext_iff] at h
  · intro hpdf hhash hvalid
    simp [handleResumeChange, hpdf, hhash, loadPdfBytesModel, hvalid]

/-- Witness for C7: with the fallback hash, the four-byte document
starting with the PDF header hashes to a concrete value; an entry storing
a different hash is refused leaving the state as it was, and an entry
storing the matching hash restores its single text record. -/
theorem sessionRestore_hash_gate_witness :
    handleResumeChange none ⟨"x.pdf", "h0", emptyAnnotState⟩
        (some ⟨"doc.pdf", "deadbeef", []⟩)
        (some ⟨"doc.pdf", "application/pdf", [37, 80, 68, 70]⟩)
      = (⟨"x.pdf", "h0", emptyAnnotState⟩,
         "Selected file does not match this session. Please reselect.") ∧
    handleResumeChange none ⟨"x.pdf", "h0", emptyAnnotState⟩
        (some ⟨"doc.pdf", "12068d",
          [SessionAnnot.text ⟨1, 0, 0, 10, 10, 600, 800, "hi", none, none, "Helvetica", []⟩]⟩)
        (some ⟨"doc.pdf", "application/pdf", [37, 80, 68, 70]⟩)
      = (⟨"", "", applySessionAnnotations
            [SessionAnnot.text ⟨1, 0, 0, 10, 10, 600, 800, "hi", none, none, "Helvetica", []⟩]⟩,
         "Session restored.") := by
  constructor
  · exact (sessionRestore_hash_gate none ⟨"x.pdf", "h0", emptyAnnotState⟩
      ⟨"doc.pdf", "deadbeef", []⟩
      ⟨"doc.pdf", "application/pdf", [37, 80, 68, 70]⟩).1 (by decide) (by decide)
  · exact (sessionRestore_hash_gate none ⟨"x.pdf", "h0", emptyAnnotState⟩
      ⟨"doc.pdf", "12068d",
        [SessionAnnot.text ⟨1, 0, 0, 10, 10, 600, 800, "hi", none, none, "Helvetica", []⟩]⟩
      ⟨"doc.pdf", "application/pdf", [37, 80, 68, 70]⟩).2.2 (by decide) (by decide) (by decide)
